import Mathlib

/-!
Shallow embedding of `src/knock-server/app.py` (the "remote knocker" job
dispatcher) and verification of the specification's claims about it.

The in-memory store of the Flask app (the module-level globals `devices`,
`knock_queue`, `job_history`, `system_logs`) is modelled by `ServerState`.
Python dicts become association lists with `lookupA`/`updateA`; the job ids
produced by `str(uuid.uuid4())[:8]` (unique by construction, per the spec)
are modelled by a fresh-id counter `nextId`.  Each Flask route becomes a
function `ServerState → ServerState × Resp`, and a trace semantics `run`
executes sequences of the three mutating operations from the empty state.
-/

namespace Knock

/-- Lookup in an association list; models a Python dict read (`m.get(k)` /
`k in m`). -/
def lookupA {α β : Type} [DecidableEq α] (k : α) : List (α × β) → Option β
  | [] => none
  | (k', v) :: rest => if k' = k then some v else lookupA k rest

/-- Write to an association list; models a Python dict write `m[k] = v`
(replaces the binding if the key is present, appends it otherwise). -/
def updateA {α β : Type} [DecidableEq α] (k : α) (v : β) : List (α × β) → List (α × β)
  | [] => [(k, v)]
  | (k', v') :: rest => if k' = k then (k, v) :: rest else (k', v') :: updateA k v rest

/-- Job lifecycle states, the `'queued' / 'assigned' / 'completed'` strings of
`job_history` entries. -/
inductive JStatus : Type
  | queued
  | assigned
  | completed
deriving DecidableEq, Repr

/-- One `job_history` record: `{ "status": ..., "worker": ... }`. -/
structure JobRec : Type where
  status : JStatus
  worker : Option String
deriving DecidableEq, Repr

/-- One `devices` record: `{ "last_seen": ..., "status": ..., "knocks": ... }`.
Timestamps are modelled as rationals. -/
structure Device : Type where
  last_seen : ℚ
  status : String
  knocks : Nat
deriving DecidableEq, Repr

/-- One `knock_queue` entry: `{ "id": ..., "target": ... }`; `target = none`
models Python `None` (any worker). -/
structure Entry : Type where
  id : Nat
  target : Option String
deriving DecidableEq, Repr

/-- The messages passed to `log_event`, abstracted from their string
rendering (the formatted text is display-only). -/
inductive LogMsg : Type
  | newDevice (mac : String)
  | forceKnock (target : String)
  | userKnock (id : Nat)
  | knockExecuted (mac : String)
  | dispatching (id : Nat) (mac : String)
deriving DecidableEq, Repr

/-- `log_event`: insert the message at the front, then drop the last entry if
the log now exceeds 50 entries. -/
def log_event (m : LogMsg) (logs : List LogMsg) : List LogMsg :=
  let l := m :: logs
  if l.length > 50 then l.dropLast else l

/-- The whole in-memory store of the server, plus the fresh-id counter that
models unique job-id generation. -/
structure ServerState : Type where
  devices : List (String × Device)
  knock_queue : List Entry
  job_history : List (Nat × JobRec)
  system_logs : List LogMsg
  nextId : Nat
deriving DecidableEq, Repr

/-- The empty store at process start. -/
def initState : ServerState :=
  { devices := [], knock_queue := [], job_history := [], system_logs := [], nextId := 0 }

/-- The JSON responses of the three mutating routes. -/
inductive Resp : Type
  | queued (jobId : Nat)
  | knock (jobId : Nat)
  | sleep
  | missingId
  | ok
deriving DecidableEq, Repr

/-- Response of `/api/job-status/<job_id>`: the history record, or
`{"status": "unknown"}`. -/
inductive JobStatusResp : Type
  | unknown
  | known (status : JStatus) (worker : Option String)
deriving DecidableEq, Repr

/-- `queue_knock` (`POST /api/queue-knock`): create a history record in state
`queued`, append `{id, target}` to the tail of `knock_queue`, log, and answer
`{"status": "queued", "job_id": ...}`.  Python's `if target:` is falsy for
both `None` and the empty string. -/
def queue_knock (target : Option String) (st : ServerState) : ServerState × Resp :=
  let job_id := st.nextId
  let hist := updateA job_id { status := JStatus.queued, worker := none } st.job_history
  let q := st.knock_queue ++ [{ id := job_id, target := target }]
  let logs :=
    match target with
    | some t => if t = "" then log_event (LogMsg.userKnock job_id) st.system_logs
                else log_event (LogMsg.forceKnock t) st.system_logs
    | none => log_event (LogMsg.userKnock job_id) st.system_logs
  ({ st with job_history := hist, knock_queue := q, system_logs := logs, nextId := st.nextId + 1 },
   Resp.queued job_id)

/-- `job_status` (`GET /api/job-status/<job_id>`):
`job_history.get(job_id, {"status": "unknown"})`; reads the store without
mutating it. -/
def job_status (job_id : Nat) (st : ServerState) : ServerState × JobStatusResp :=
  (st,
   match lookupA job_id st.job_history with
   | some r => JobStatusResp.known r.status r.worker
   | none => JobStatusResp.unknown)

/-- `confirm_knock` (`POST /api/confirm-knock`): if the job id is known, set
its history record to completed with the reporting worker, increment the
worker's knock count when the worker is known, and log; in every case answer
`{"status": "ok"}`. -/
def confirm_knock (job_id : Nat) (mac : String) (st : ServerState) : ServerState × Resp :=
  match lookupA job_id st.job_history with
  | some _ =>
    let hist := updateA job_id { status := JStatus.completed, worker := some mac } st.job_history
    let devs :=
      match lookupA mac st.devices with
      | some d => updateA mac { d with knocks := d.knocks + 1 } st.devices
      | none => st.devices
    ({ st with job_history := hist, devices := devs,
               system_logs := log_event (LogMsg.knockExecuted mac) st.system_logs },
     Resp.ok)
  | none => (st, Resp.ok)

/-- Eligibility test of the claim loop in `poll`:
`job['target'] is None or job['target'] == mac`. -/
def eligible (mac : String) (e : Entry) : Bool :=
  e.target = none || e.target = some mac

/-- The claim loop of `poll`: scan `knock_queue` head to tail, pop and return
the first eligible entry (`knock_queue.pop(i)` + `break`), leaving the rest in
order; return `none` (and the queue unchanged) when nothing matches. -/
def tryClaim (mac : String) : List Entry → Option Entry × List Entry
  | [] => (none, [])
  | e :: rest =>
    if eligible mac e then (some e, rest)
    else
      let p := tryClaim mac rest
      (p.1, e :: p.2)

/-- The heartbeat block of `poll`: `devices[mac] = {"knocks": 0}` on first
sight (with the "New Device Joined" log event), then unconditionally
`devices[mac]['last_seen'] = now` and `devices[mac]['status'] = 'online'`.
The two Python statements are merged into one map write with the same net
effect. -/
def heartbeat (mac : String) (now : ℚ) (st : ServerState) : ServerState :=
  let prev := lookupA mac st.devices
  { st with
    devices := updateA mac
      { last_seen := now, status := "online", knocks := (prev.map Device.knocks).getD 0 }
      st.devices,
    system_logs :=
      if prev.isNone then log_event (LogMsg.newDevice mac) st.system_logs
      else st.system_logs }

/-- `poll` (`GET /api/poll?id=<mac>`): reject a missing or empty id
(`if not mac`), else heartbeat, then claim the first eligible queue entry; on
a claim, set its history record to assigned for this worker
(`job_history[id]['status'] = 'assigned'; job_history[id]['worker'] = mac` —
a plain record overwrite, since status and worker are the record's only
fields) and answer KNOCK, otherwise answer SLEEP. -/
def poll (mac? : Option String) (now : ℚ) (st : ServerState) : ServerState × Resp :=
  match mac? with
  | none => (st, Resp.missingId)
  | some mac =>
    if mac = "" then (st, Resp.missingId)
    else
      let st1 := heartbeat mac now st
      match tryClaim mac st1.knock_queue with
      | (some job, rest) =>
        ({ st1 with
           knock_queue := rest,
           job_history :=
             updateA job.id { status := JStatus.assigned, worker := some mac } st1.job_history,
           system_logs := log_event (LogMsg.dispatching job.id mac) st1.system_logs },
         Resp.knock job.id)
      | (none, _) => (st1, Resp.sleep)

/-- Python `int()` on a rational: truncation toward zero (the
`int(now - dev['last_seen'])` of the admin view). -/
def pyInt (q : ℚ) : Int := if 0 ≤ q then ⌊q⌋ else -⌊-q⌋

/-- A device as displayed by the admin dashboard, with the derived
`seconds_ago` and `is_online` fields. -/
structure DisplayDevice : Type where
  last_seen : ℚ
  status : String
  knocks : Nat
  seconds_ago : Int
  is_online : Bool
deriving DecidableEq, Repr

/-- The per-device derivation of the `/admin` view:
`seconds_ago = int(now - last_seen)`, `is_online = seconds_ago < 10`. -/
def displayDevice (now : ℚ) (d : Device) : DisplayDevice :=
  let seconds_ago := pyInt (now - d.last_seen)
  { last_seen := d.last_seen, status := d.status, knocks := d.knocks,
    seconds_ago := seconds_ago, is_online := decide (seconds_ago < 10) }

/-- `admin` (`GET /admin`): derive the display map over all devices; a pure
read of the store. -/
def adminRoute (now : ℚ) (st : ServerState) :
    ServerState × List (String × DisplayDevice) :=
  (st, st.devices.map (fun p => (p.1, displayDevice now p.2)))

/-- The mutating operations available to external callers, for the trace
semantics. -/
inductive Op : Type
  | submit (target : Option String)
  | poll (mac : Option String) (now : ℚ)
  | confirm (jobId : Nat) (mac : String)
deriving DecidableEq, Repr

/-- One request against the server. -/
def step (st : ServerState) (op : Op) : ServerState × Resp :=
  match op with
  | Op.submit t => queue_knock t st
  | Op.poll m now => poll m now st
  | Op.confirm j w => confirm_knock j w st

/-- Execute a sequence of requests from a given state, collecting the
responses in order. -/
def runFrom (st : ServerState) : List Op → ServerState × List Resp
  | [] => (st, [])
  | op :: ops =>
    let p := step st op
    let q := runFrom p.1 ops
    (q.1, p.2 :: q.2)

/-- Execute a sequence of requests from the empty store. -/
def run (ops : List Op) : ServerState × List Resp := runFrom initState ops

/-- The ids currently sitting in the pending queue. -/
def qIds (st : ServerState) : List Nat := st.knock_queue.map Entry.id

/-- The job ids handed out in KNOCK responses, in order. -/
def claimedIds : List Resp → List Nat
  | [] => []
  | Resp.knock j :: rest => j :: claimedIds rest
  | _ :: rest => claimedIds rest

/-- The job ids returned by submissions, in order. -/
def issuedIds : List Resp → List Nat
  | [] => []
  | Resp.queued j :: rest => j :: issuedIds rest
  | _ :: rest => issuedIds rest

/-- The lifecycle state the history records for a job id, if any. -/
def statusOf (st : ServerState) (id : Nat) : Option JStatus :=
  (lookupA id st.job_history).map JobRec.status

/-- The keys of the history map. -/
def histKeys (st : ServerState) : List Nat := st.job_history.map Prod.fst

/-! ### Association-list lemmas -/

theorem lookupA_updateA_self {α β : Type} [DecidableEq α] (k : α) (v : β)
    (m : List (α × β)) : lookupA k (updateA k v m) = some v := by
  induction m with
  | nil => simp [updateA, lookupA]
  | cons p rest ih =>
    obtain ⟨k', v'⟩ := p
    by_cases h : k' = k
    · simp [updateA, lookupA, h]
    · simp [updateA, lookupA, h, ih]

theorem lookupA_updateA_ne {α β : Type} [DecidableEq α] {k i : α} (v : β)
    (m : List (α × β)) (h : i ≠ k) : lookupA i (updateA k v m) = lookupA i m := by
  have h' : ¬ k = i := fun hk => h hk.symm
  induction m with
  | nil => simp [updateA, lookupA, h']
  | cons p rest ih =>
    obtain ⟨k', v'⟩ := p
    by_cases hk : k' = k
    · subst hk
      simp [updateA, lookupA, h']
    · by_cases hi : k' = i
      · subst hi
        simp [updateA, lookupA, hk]
      · simp [updateA, lookupA, hk, hi, ih]

theorem mem_keys_updateA {α β : Type} [DecidableEq α] {k i : α} {v : β}
    {m : List (α × β)} :
    i ∈ (updateA k v m).map Prod.fst → i = k ∨ i ∈ m.map Prod.fst := by
  induction m with
  | nil =>
    intro h
    simp [updateA] at h
    exact Or.inl h
  | cons p rest ih =>
    obtain ⟨k', v'⟩ := p
    intro h
    by_cases hk : k' = k
    · subst hk
      simp only [updateA, if_true, List.map_cons, List.mem_cons, if_pos] at h
      rcases h with h1 | h1
      · exact Or.inl h1
      · exact Or.inr (by simp only [List.map_cons, List.mem_cons]; exact Or.inr h1)
    · simp only [updateA, if_neg hk, List.map_cons, List.mem_cons] at h
      rcases h with h1 | h1
      · exact Or.inr (by simp [h1])
      · rcases ih h1 with h2 | h2
        · exact Or.inl h2
        · exact Or.inr (by simp only [List.map_cons, List.mem_cons]; exact Or.inr h2)

theorem mem_keys_of_lookupA {α β : Type} [DecidableEq α] {k : α} {v : β}
    {m : List (α × β)} : lookupA k m = some v → k ∈ m.map Prod.fst := by
  induction m with
  | nil => intro h; simp [lookupA] at h
  | cons p rest ih =>
    obtain ⟨k', v'⟩ := p
    intro h
    by_cases hk : k' = k
    · simp [hk]
    · simp only [lookupA, if_neg hk] at h
      exact List.mem_cons_of_mem _ (ih h)

/-! ### Response-list bookkeeping -/

theorem claimedIds_append (xs ys : List Resp) :
    claimedIds (xs ++ ys) = claimedIds xs ++ claimedIds ys := by
  induction xs with
  | nil => rfl
  | cons x xs ih => cases x <;> simp [claimedIds, ih]

theorem issuedIds_append (xs ys : List Resp) :
    issuedIds (xs ++ ys) = issuedIds xs ++ issuedIds ys := by
  induction xs with
  | nil => rfl
  | cons x xs ih => cases x <;> simp [issuedIds, ih]

theorem mem_claimedIds_of_mem {j : Nat} {outs : List Resp}
    (h : Resp.knock j ∈ outs) : j ∈ claimedIds outs := by
  induction outs with
  | nil => simp at h
  | cons x xs ih =>
    rcases List.mem_cons.mp h with h1 | h1
    · subst h1; simp [claimedIds]
    · cases x <;> simp [claimedIds, ih h1]

/-! ### The claim loop -/

/-- Complete characterisation of `tryClaim`: either it pops the first eligible
entry (everything before it ineligible, everything else kept in order), or
nothing is eligible and the queue is returned unchanged. -/
theorem tryClaim_cases (mac : String) (q : List Entry) :
    (∃ pre e post, tryClaim mac q = (some e, pre ++ post) ∧ q = pre ++ e :: post ∧
       eligible mac e = true ∧ ∀ x ∈ pre, eligible mac x = false) ∨
    (tryClaim mac q = (none, q) ∧ ∀ e ∈ q, eligible mac e = false) := by
  induction q with
  | nil => exact Or.inr ⟨rfl, by simp⟩
  | cons e rest ih =>
    by_cases h : eligible mac e
    · exact Or.inl ⟨[], e, rest, by simp [tryClaim, h], rfl, h, by simp⟩
    · rcases ih with ⟨pre, e', post, h1, h2, h3, h4⟩ | ⟨h1, h2⟩
      · refine Or.inl ⟨e :: pre, e', post, ?_, by simp [h2], h3, ?_⟩
        · simp [tryClaim, h, h1]
        · intro x hx
          rcases List.mem_cons.mp hx with h5 | h5
          · subst h5; exact eq_false_of_ne_true h
          · exact h4 x h5
      · refine Or.inr ⟨by simp [tryClaim, h, h1], ?_⟩
        intro x hx
        rcases List.mem_cons.mp hx with h5 | h5
        · subst h5; exact eq_false_of_ne_true h
        · exact h2 x h5

/-! ### Small list facts -/

theorem not_mem_of_nodup_middle {α : Type} {a : α} {l₁ l₂ : List α}
    (h : (l₁ ++ a :: l₂).Nodup) : a ∉ l₁ ++ l₂ :=
  (List.nodup_cons.mp (List.perm_middle.nodup h)).1

theorem mem_append_of_mem_middle_ne {α : Type} {a x : α} {l₁ l₂ : List α}
    (h : x ∈ l₁ ++ a :: l₂) (hne : x ≠ a) : x ∈ l₁ ++ l₂ := by
  rcases List.mem_append.mp h with h1 | h1
  · exact List.mem_append.mpr (Or.inl h1)
  · rcases List.mem_cons.mp h1 with h2 | h2
    · exact absurd h2 hne
    · exact List.mem_append.mpr (Or.inr h2)

theorem entry_eq_of_id_eq {q : List Entry} {a b : Entry}
    (hnd : (q.map Entry.id).Nodup) (ha : a ∈ q) (hb : b ∈ q) (hid : a.id = b.id) :
    a = b := by
  induction q with
  | nil => simp at ha
  | cons x rest ih =>
    have hnd' : (∀ y ∈ rest, ¬ y.id = x.id) ∧ (rest.map Entry.id).Nodup := by
      simpa using hnd
    rcases List.mem_cons.mp ha with ha1 | ha1 <;> rcases List.mem_cons.mp hb with hb1 | hb1
    · exact ha1.trans hb1.symm
    · subst ha1
      exact absurd hid.symm (hnd'.1 b hb1)
    · subst hb1
      exact absurd hid (hnd'.1 a ha1)
    · exact ih hnd'.2 ha1 hb1

/-! ### The reachable-state invariant -/

/-- Simp lemma: the heartbeat block touches only `devices` and `system_logs`. -/
@[simp] theorem heartbeat_knock_queue (mac : String) (now : ℚ) (st : ServerState) :
    (heartbeat mac now st).knock_queue = st.knock_queue := rfl

@[simp] theorem heartbeat_job_history (mac : String) (now : ℚ) (st : ServerState) :
    (heartbeat mac now st).job_history = st.job_history := rfl

@[simp] theorem heartbeat_nextId (mac : String) (now : ℚ) (st : ServerState) :
    (heartbeat mac now st).nextId = st.nextId := rfl

/-- The invariant holding in every state reachable by a response list `outs`:
job ids ever claimed and ids still queued are jointly distinct and below the
fresh-id counter, history keys are below the counter and were all issued by
some submission, queued jobs are recorded `queued` (or `completed`, when a
completion report named a still-pending job), and history entries no longer
queued are `assigned` or `completed`. -/
structure TraceInv (st : ServerState) (outs : List Resp) : Prop where
  nodupClaimQ : (claimedIds outs ++ qIds st).Nodup
  claimedLt : ∀ i ∈ claimedIds outs, i < st.nextId
  qLt : ∀ i ∈ qIds st, i < st.nextId
  histLt : ∀ i ∈ histKeys st, i < st.nextId
  qStatus : ∀ e ∈ st.knock_queue,
    statusOf st e.id = some JStatus.queued ∨ statusOf st e.id = some JStatus.completed
  offQueue : ∀ i r, lookupA i st.job_history = some r → i ∉ qIds st →
    r.status = JStatus.assigned ∨ r.status = JStatus.completed
  keysIssued : ∀ i ∈ histKeys st, i ∈ issuedIds outs

/-- Appending a response that is neither a KNOCK nor a job issue preserves the
invariant on an unchanged store. -/
theorem TraceInv.append_silent {st : ServerState} {outs : List Resp} {r : Resp}
    (h : TraceInv st outs) (hc : claimedIds [r] = []) (hi : issuedIds [r] = []) :
    TraceInv st (outs ++ [r]) := by
  have hc' : claimedIds (outs ++ [r]) = claimedIds outs := by
    rw [claimedIds_append, hc, List.append_nil]
  have hi' : issuedIds (outs ++ [r]) = issuedIds outs := by
    rw [issuedIds_append, hi, List.append_nil]
  exact ⟨by rw [hc']; exact h.nodupClaimQ, by rw [hc']; exact h.claimedLt,
         h.qLt, h.histLt, h.qStatus, h.offQueue,
         by rw [hi']; exact h.keysIssued⟩

/-- `queue_knock` preserves the invariant, answering the fresh id. -/
theorem submit_preserves {st : ServerState} {outs : List Resp} (t : Option String)
    (h : TraceInv st outs) :
    TraceInv (queue_knock t st).1 (outs ++ [Resp.queued st.nextId]) := by
  have hq : (queue_knock t st).1.knock_queue
      = st.knock_queue ++ [{ id := st.nextId, target := t }] := rfl
  have hh : (queue_knock t st).1.job_history
      = updateA st.nextId { status := JStatus.queued, worker := none } st.job_history := rfl
  have hn : (queue_knock t st).1.nextId = st.nextId + 1 := rfl
  have hqids : qIds (queue_knock t st).1 = qIds st ++ [st.nextId] := by
    simp [qIds, hq]
  have hclm : claimedIds (outs ++ [Resp.queued st.nextId]) = claimedIds outs := by
    rw [claimedIds_append]; simp [claimedIds]
  have hiss : issuedIds (outs ++ [Resp.queued st.nextId]) = issuedIds outs ++ [st.nextId] := by
    rw [issuedIds_append]; simp [issuedIds]
  refine ⟨?_, ?_, ?_, ?_, ?_, ?_, ?_⟩
  · rw [hclm, hqids, ← List.append_assoc]
    rw [List.nodup_append]
    refine ⟨h.nodupClaimQ, List.nodup_singleton _, ?_⟩
    intro a ha hb
    have hb' : a = st.nextId := by simpa using hb
    subst hb'
    rcases List.mem_append.mp ha with h1 | h1
    · exact lt_irrefl _ (h.claimedLt _ h1)
    · exact lt_irrefl _ (h.qLt _ h1)
  · intro i hi
    rw [hclm] at hi
    rw [hn]
    exact Nat.lt_succ_of_lt (h.claimedLt i hi)
  · intro i hi
    rw [hqids] at hi
    rw [hn]
    rcases List.mem_append.mp hi with h1 | h1
    · exact Nat.lt_succ_of_lt (h.qLt i h1)
    · have : i = st.nextId := by simpa using h1
      subst this
      exact Nat.lt_succ_self _
  · intro i hi
    rw [hn]
    unfold histKeys at hi
    rw [hh] at hi
    rcases mem_keys_updateA hi with h1 | h1
    · subst h1; exact Nat.lt_succ_self _
    · exact Nat.lt_succ_of_lt (h.histLt i h1)
  · intro e he
    rw [hq] at he
    rcases List.mem_append.mp he with h1 | h1
    · have hlt : e.id < st.nextId := h.qLt e.id (List.mem_map_of_mem Entry.id h1)
      have hne : e.id ≠ st.nextId := Nat.ne_of_lt hlt
      have hst : statusOf (queue_knock t st).1 e.id = statusOf st e.id := by
        simp [statusOf, hh, lookupA_updateA_ne _ _ hne]
      rw [hst]
      exact h.qStatus e h1
    · have he' : e = { id := st.nextId, target := t } := by simpa using h1
      subst he'
      left
      simp [statusOf, hh, lookupA_updateA_self]
  · intro i r hl hni
    rw [hqids] at hni
    have hne : i ≠ st.nextId := by
      intro hcon
      exact hni (hcon ▸ List.mem_append.mpr (Or.inr (List.mem_singleton.mpr rfl)))
    rw [hh, lookupA_updateA_ne _ _ hne] at hl
    have hni' : i ∉ qIds st := fun hc => hni (List.mem_append.mpr (Or.inl hc))
    exact h.offQueue i r hl hni'
  · intro i hi
    rw [hiss]
    unfold histKeys at hi
    rw [hh] at hi
    rcases mem_keys_updateA hi with h1 | h1
    · exact List.mem_append.mpr (Or.inr (by simp [h1]))
    · exact List.mem_append.mpr (Or.inl (h.keysIssued i h1))

/-- Popping the first eligible entry and marking it assigned preserves the
invariant, answering KNOCK with its id. -/
theorem claim_preserves {st st' : ServerState} {outs : List Resp}
    {pre post : List Entry} {e : Entry} {mac : String}
    (h : TraceInv st outs)
    (hq : st.knock_queue = pre ++ e :: post)
    (h1 : st'.knock_queue = pre ++ post)
    (h2 : st'.job_history
      = updateA e.id { status := JStatus.assigned, worker := some mac } st.job_history)
    (h3 : st'.nextId = st.nextId) :
    TraceInv st' (outs ++ [Resp.knock e.id]) := by
  have hqids : qIds st = pre.map Entry.id ++ e.id :: post.map Entry.id := by
    simp [qIds, hq]
  have hqids' : qIds st' = pre.map Entry.id ++ post.map Entry.id := by
    simp [qIds, h1]
  have hclm : claimedIds (outs ++ [Resp.knock e.id]) = claimedIds outs ++ [e.id] := by
    rw [claimedIds_append]; simp [claimedIds]
  have hiss : issuedIds (outs ++ [Resp.knock e.id]) = issuedIds outs := by
    rw [issuedIds_append]; simp [issuedIds]
  have heidmem : e.id ∈ qIds st := by
    rw [hqids]; exact List.mem_append.mpr (Or.inr (List.mem_cons_self _ _))
  have heidlt : e.id < st.nextId := h.qLt e.id heidmem
  have hemem : e ∈ st.knock_queue := by
    rw [hq]; exact List.mem_append.mpr (Or.inr (List.mem_cons_self _ _))
  have heidkey : ∃ r, lookupA e.id st.job_history = some r := by
    rcases h.qStatus e hemem with hs | hs <;>
      · rcases hl : lookupA e.id st.job_history with _ | r
        · rw [statusOf, hl] at hs; simp at hs
        · exact ⟨r, rfl⟩
  have hqnodup : (qIds st).Nodup := h.nodupClaimQ.of_append_right
  have heid_not : e.id ∉ pre.map Entry.id ++ post.map Entry.id :=
    not_mem_of_nodup_middle (hqids ▸ hqnodup)
  refine ⟨?_, ?_, ?_, ?_, ?_, ?_, ?_⟩
  · rw [hclm, hqids']
    have hgoal : (claimedIds outs ++ [e.id]) ++ (pre.map Entry.id ++ post.map Entry.id)
        = claimedIds outs ++ (e.id :: (pre.map Entry.id ++ post.map Entry.id)) := by
      simp
    rw [hgoal]
    have hsrc := h.nodupClaimQ
    rw [hqids] at hsrc
    have hperm : List.Perm
        (claimedIds outs ++ (pre.map Entry.id ++ e.id :: post.map Entry.id))
        (claimedIds outs ++ (e.id :: (pre.map Entry.id ++ post.map Entry.id))) :=
      List.Perm.append_left _ List.perm_middle
    exact hperm.nodup hsrc
  · intro i hi
    rw [hclm] at hi
    rw [h3]
    rcases List.mem_append.mp hi with hi1 | hi1
    · exact h.claimedLt i hi1
    · have : i = e.id := by simpa using hi1
      subst this
      exact heidlt
  · intro i hi
    rw [h3]
    apply h.qLt
    rw [hqids]
    rw [hqids'] at hi
    rcases List.mem_append.mp hi with hi1 | hi1
    · exact List.mem_append.mpr (Or.inl hi1)
    · exact List.mem_append.mpr (Or.inr (List.mem_cons_of_mem _ hi1))
  · intro i hi
    rw [h3]
    unfold histKeys at hi
    rw [h2] at hi
    rcases mem_keys_updateA hi with hi1 | hi1
    · subst hi1; exact heidlt
    · exact h.histLt i hi1
  · intro e' he'
    rw [h1] at he'
    have hne : e'.id ≠ e.id := by
      intro hcon
      exact heid_not (hcon ▸ (by simpa using List.mem_map_of_mem Entry.id he'))
    have hst : statusOf st' e'.id = statusOf st e'.id := by
      simp [statusOf, h2, lookupA_updateA_ne _ _ hne]
    rw [hst]
    apply h.qStatus
    rw [hq]
    rcases List.mem_append.mp he' with h5 | h5
    · exact List.mem_append.mpr (Or.inl h5)
    · exact List.mem_append.mpr (Or.inr (List.mem_cons_of_mem _ h5))
  · intro i r hl hni
    rw [h2] at hl
    by_cases hie : i = e.id
    · subst hie
      rw [lookupA_updateA_self] at hl
      cases hl
      exact Or.inl rfl
    · rw [lookupA_updateA_ne _ _ hie] at hl
      apply h.offQueue i r hl
      intro hc
      rw [hqids] at hc
      rw [hqids'] at hni
      exact hni (mem_append_of_mem_middle_ne hc hie)
  · intro i hi
    rw [hiss]
    unfold histKeys at hi
    rw [h2] at hi
    rcases mem_keys_updateA hi with hi1 | hi1
    · subst hi1
      rcases heidkey with ⟨r, hr⟩
      exact h.keysIssued _ (mem_keys_of_lookupA hr)
    · exact h.keysIssued i hi1

/-- `confirm_knock` preserves the invariant, answering OK. -/
theorem confirm_preserves {st : ServerState} {outs : List Resp} (j : Nat) (w : String)
    (h : TraceInv st outs) :
    TraceInv (confirm_knock j w st).1 (outs ++ [Resp.ok]) := by
  have hsil : TraceInv st (outs ++ [Resp.ok]) :=
    h.append_silent (by simp [claimedIds]) (by simp [issuedIds])
  cases hl : lookupA j st.job_history with
  | none =>
    have hst : (confirm_knock j w st).1 = st := by simp [confirm_knock, hl]
    rw [hst]
    exact hsil
  | some r0 =>
    have hh : (confirm_knock j w st).1.job_history
        = updateA j { status := JStatus.completed, worker := some w } st.job_history := by
      simp [confirm_knock, hl]
    have hq : (confirm_knock j w st).1.knock_queue = st.knock_queue := by
      simp [confirm_knock, hl]
    have hn : (confirm_knock j w st).1.nextId = st.nextId := by
      simp [confirm_knock, hl]
    have hqids : qIds (confirm_knock j w st).1 = qIds st := by simp [qIds, hq]
    refine ⟨?_, ?_, ?_, ?_, ?_, ?_, ?_⟩
    · rw [hqids]; exact hsil.nodupClaimQ
    · rw [hn]; exact hsil.claimedLt
    · rw [hqids, hn]; exact hsil.qLt
    · intro i hi
      rw [hn]
      unfold histKeys at hi
      rw [hh] at hi
      rcases mem_keys_updateA hi with hi1 | hi1
      · subst hi1; exact h.histLt _ (mem_keys_of_lookupA hl)
      · exact h.histLt i hi1
    · intro e he
      rw [hq] at he
      by_cases hej : e.id = j
      · right
        simp [statusOf, hh, hej, lookupA_updateA_self]
      · have hst : statusOf (confirm_knock j w st).1 e.id = statusOf st e.id := by
          simp [statusOf, hh, lookupA_updateA_ne _ _ hej]
        rw [hst]
        exact h.qStatus e he
    · intro i r hli hni
      rw [hh] at hli
      rw [hqids] at hni
      by_cases hij : i = j
      · subst hij
        rw [lookupA_updateA_self] at hli
        cases hli
        exact Or.inr rfl
      · rw [lookupA_updateA_ne _ _ hij] at hli
        exact h.offQueue i r hli hni
    · intro i hi
      unfold histKeys at hi
      rw [hh] at hi
      rcases mem_keys_updateA hi with hi1 | hi1
      · subst hi1
        exact hsil.keysIssued _ (mem_keys_of_lookupA hl)
      · exact hsil.keysIssued i hi1

/-- `poll` preserves the invariant whatever its answer. -/
theorem poll_preserves {st : ServerState} {outs : List Resp} (m : Option String) (now : ℚ)
    (h : TraceInv st outs) :
    TraceInv (poll m now st).1 (outs ++ [(poll m now st).2]) := by
  cases m with
  | none =>
    exact h.append_silent (by simp [claimedIds]) (by simp [issuedIds])
  | some mac =>
    by_cases hm : mac = ""
    · have hp : poll (some mac) now st = (st, Resp.missingId) := by simp [poll, hm]
      rw [hp]
      exact h.append_silent (by simp [claimedIds]) (by simp [issuedIds])
    · rcases tryClaim_cases mac st.knock_queue with
        ⟨pre, e, post, hct, hq, hel, hpre⟩ | ⟨hct, hall⟩
      · have hp : poll (some mac) now st
            = ({ heartbeat mac now st with
                 knock_queue := pre ++ post,
                 job_history := updateA e.id
                   { status := JStatus.assigned, worker := some mac }
                   (heartbeat mac now st).job_history,
                 system_logs := log_event (LogMsg.dispatching e.id mac)
                   (heartbeat mac now st).system_logs },
               Resp.knock e.id) := by
          simp [poll, hm, hct]
        rw [hp]
        exact claim_preserves h hq rfl rfl rfl
      · have hp : poll (some mac) now st = (heartbeat mac now st, Resp.sleep) := by
          simp [poll, hm, hct]
        rw [hp]
        have h' : TraceInv st (outs ++ [Resp.sleep]) :=
          h.append_silent (by simp [claimedIds]) (by simp [issuedIds])
        exact ⟨h'.nodupClaimQ, h'.claimedLt, h'.qLt, h'.histLt, h'.qStatus,
               h'.offQueue, h'.keysIssued⟩

/-- Whatever the input, `confirm_knock` reports success. -/
theorem confirm_resp_ok (j : Nat) (w : String) (st : ServerState) :
    (confirm_knock j w st).2 = Resp.ok := by
  cases hl : lookupA j st.job_history <;> simp [confirm_knock, hl]

/-- Every single request preserves the invariant. -/
theorem step_preserves {st : ServerState} {outs : List Resp} (op : Op)
    (h : TraceInv st outs) :
    TraceInv (step st op).1 (outs ++ [(step st op).2]) := by
  cases op with
  | submit t => exact submit_preserves t h
  | poll m now => exact poll_preserves m now h
  | confirm j w =>
    have h2 := confirm_preserves j w h
    simpa [step, confirm_resp_ok] using h2

/-- Running any request sequence preserves the invariant, accumulating the
responses. -/
theorem runFrom_inv (ops : List Op) :
    ∀ st outs, TraceInv st outs →
      TraceInv (runFrom st ops).1 (outs ++ (runFrom st ops).2) := by
  induction ops with
  | nil => intro st outs h; simpa [runFrom] using h
  | cons op ops ih =>
    intro st outs h
    have h2 := ih (step st op).1 (outs ++ [(step st op).2]) (step_preserves op h)
    simpa [runFrom, List.append_assoc] using h2

/-- The empty store satisfies the invariant with no responses. -/
theorem init_inv : TraceInv initState [] := by
  refine ⟨?_, ?_, ?_, ?_, ?_, ?_, ?_⟩ <;>
    simp [initState, qIds, histKeys, claimedIds, issuedIds, statusOf, lookupA]

/-- The invariant holds after any request sequence from the empty store. -/
theorem run_inv (ops : List Op) : TraceInv (run ops).1 (run ops).2 := by
  have h := runFrom_inv ops initState [] init_inv
  simpa [run] using h

/-- Executing a concatenated sequence is executing the pieces in order. -/
theorem runFrom_append (xs ys : List Op) : ∀ st : ServerState,
    runFrom st (xs ++ ys)
      = ((runFrom (runFrom st xs).1 ys).1,
         (runFrom st xs).2 ++ (runFrom (runFrom st xs).1 ys).2) := by
  induction xs with
  | nil => intro st; simp [runFrom]
  | cons op xs ih => intro st; simp [runFrom, ih]

/-! ### Stability of completed jobs that have left the queue -/

/-- Once a job is recorded completed and its entry is no longer pending, no
single request changes that. -/
theorem completed_stable_step {st : ServerState} {outs : List Resp} (op : Op)
    (h : TraceInv st outs) {i : Nat}
    (hc : statusOf st i = some JStatus.completed) (hq : i ∉ qIds st) :
    statusOf (step st op).1 i = some JStatus.completed ∧ i ∉ qIds (step st op).1 := by
  have hkey : ∃ r, lookupA i st.job_history = some r := by
    rcases hl : lookupA i st.job_history with _ | r
    · rw [statusOf, hl] at hc; simp at hc
    · exact ⟨r, rfl⟩
  have hlt : i < st.nextId := by
    rcases hkey with ⟨r, hr⟩
    exact h.histLt i (mem_keys_of_lookupA hr)
  have hne : i ≠ st.nextId := Nat.ne_of_lt hlt
  cases op with
  | submit t =>
    simp only [step]
    constructor
    · have hst : statusOf (queue_knock t st).1 i = statusOf st i := by
        simp [statusOf, queue_knock, lookupA_updateA_ne _ _ hne]
      rw [hst]; exact hc
    · intro hmem
      have hqids : qIds (queue_knock t st).1 = qIds st ++ [st.nextId] := by
        simp [qIds, queue_knock]
      rw [hqids] at hmem
      rcases List.mem_append.mp hmem with h1 | h1
      · exact hq h1
      · exact hne (by simpa using h1)
  | poll m now =>
    cases m with
    | none => exact ⟨hc, hq⟩
    | some mac =>
      by_cases hm : mac = ""
      · have hp : poll (some mac) now st = (st, Resp.missingId) := by simp [poll, hm]
        simp only [step, hp]
        exact ⟨hc, hq⟩
      · rcases tryClaim_cases mac st.knock_queue with
          ⟨pre, e, post, hct, hq2, hel, hpre⟩ | ⟨hct, hall⟩
        · have hp : poll (some mac) now st
              = ({ heartbeat mac now st with
                   knock_queue := pre ++ post,
                   job_history := updateA e.id
                     { status := JStatus.assigned, worker := some mac }
                     (heartbeat mac now st).job_history,
                   system_logs := log_event (LogMsg.dispatching e.id mac)
                     (heartbeat mac now st).system_logs },
                 Resp.knock e.id) := by
            simp [poll, hm, hct]
          have heidmem : e.id ∈ qIds st := by
            simp [qIds, hq2]
          have hie : i ≠ e.id := fun hcon => hq (hcon ▸ heidmem)
          constructor
          · simp only [step, hp]
            have hst : statusOf st i = (lookupA i st.job_history).map JobRec.status := rfl
            simp [statusOf, lookupA_updateA_ne _ _ hie]
            simpa [statusOf] using hc
          · simp only [step, hp]
            intro hmem
            apply hq
            simp only [qIds, List.map_append, List.mem_append] at hmem
            simp only [qIds, hq2, List.map_append, List.map_cons, List.mem_append,
              List.mem_cons]
            rcases hmem with h1 | h1
            · exact Or.inl h1
            · exact Or.inr (Or.inr h1)
        · have hp : poll (some mac) now st = (heartbeat mac now st, Resp.sleep) := by
            simp [poll, hm, hct]
          simp only [step, hp]
          refine ⟨by simpa [statusOf] using hc, by simpa [qIds] using hq⟩
  | confirm j w =>
    cases hl : lookupA j st.job_history with
    | none =>
      have hst : (confirm_knock j w st).1 = st := by simp [confirm_knock, hl]
      simp only [step, hst]
      exact ⟨hc, hq⟩
    | some r0 =>
      have hh : (confirm_knock j w st).1.job_history
          = updateA j { status := JStatus.completed, worker := some w } st.job_history := by
        simp [confirm_knock, hl]
      have hqk : (confirm_knock j w st).1.knock_queue = st.knock_queue := by
        simp [confirm_knock, hl]
      constructor
      · by_cases hij : i = j
        · subst hij
          simp [statusOf, step, hh, lookupA_updateA_self]
        · have hst : statusOf (confirm_knock j w st).1 i = statusOf st i := by
            simp [statusOf, hh, lookupA_updateA_ne _ _ hij]
          simpa [step, hst] using hc
      · simpa [step, qIds, hqk] using hq

/-- Once a job is recorded completed and its entry is no longer pending, no
later request sequence changes that. -/
theorem completed_stable_run (more : List Op) {i : Nat} :
    ∀ st outs, TraceInv st outs →
      statusOf st i = some JStatus.completed → i ∉ qIds st →
      statusOf (runFrom st more).1 i = some JStatus.completed ∧
        i ∉ qIds (runFrom st more).1 := by
  induction more with
  | nil => intro st outs _ hc hq; exact ⟨hc, hq⟩
  | cons op ops ih =>
    intro st outs h hc hq
    have h1 := completed_stable_step op h hc hq
    exact ih (step st op).1 (outs ++ [(step st op).2]) (step_preserves op h) h1.1 h1.2

/-! ### Empty-string-targeted entries are stuck -/

/-- The empty-string target matches no worker that gets past the id check. -/
theorem eligible_empty_target (mac : String) (j : Nat) (hm : mac ≠ "") :
    eligible mac (Entry.mk j (some "")) = false := by
  simp [eligible]
  exact fun hcon => hm hcon.symm

/-- A pending entry whose target is the empty string survives any single
request: it stays queued, is never the job of a KNOCK answer, and (short of a
completion report naming it) its history state stays queued. -/
theorem stuck_step {st : ServerState} {outs : List Resp} (op : Op) (j : Nat)
    (h : TraceInv st outs)
    (hm : Entry.mk j (some "") ∈ st.knock_queue) :
    Entry.mk j (some "") ∈ (step st op).1.knock_queue ∧
    (step st op).2 ≠ Resp.knock j ∧
    (statusOf st j = some JStatus.queued → (∀ w, op ≠ Op.confirm j w) →
       statusOf (step st op).1 j = some JStatus.queued) := by
  have hjq : j ∈ qIds st := by
    have := List.mem_map_of_mem Entry.id hm
    simpa [qIds] using this
  have hjlt : j < st.nextId := h.qLt j hjq
  cases op with
  | submit t =>
    simp only [step]
    refine ⟨?_, ?_, ?_⟩
    · have hqk : (queue_knock t st).1.knock_queue
          = st.knock_queue ++ [{ id := st.nextId, target := t }] := rfl
      rw [hqk]
      exact List.mem_append.mpr (Or.inl hm)
    · simp [queue_knock]
    · intro hs _
      have hne : j ≠ st.nextId := Nat.ne_of_lt hjlt
      have hst : statusOf (queue_knock t st).1 j = statusOf st j := by
        simp [statusOf, queue_knock, lookupA_updateA_ne _ _ hne]
      rw [hst]; exact hs
  | poll m now =>
    cases m with
    | none => exact ⟨hm, by simp [step, poll], fun hs _ => hs⟩
    | some mac =>
      by_cases hmac : mac = ""
      · have hp : poll (some mac) now st = (st, Resp.missingId) := by simp [poll, hmac]
        simp only [step, hp]
        exact ⟨hm, by simp, fun hs _ => hs⟩
      · rcases tryClaim_cases mac st.knock_queue with
          ⟨pre, e, post, hct, hq2, hel, hpre⟩ | ⟨hct, hall⟩
        · have hqnodup : (qIds st).Nodup := h.nodupClaimQ.of_append_right
          have hemem : e ∈ st.knock_queue := by
            rw [hq2]; exact List.mem_append.mpr (Or.inr (List.mem_cons_self _ _))
          have hje : e.id ≠ j := by
            intro hcon
            have heq : e = Entry.mk j (some "") :=
              entry_eq_of_id_eq hqnodup hemem hm (by simpa using hcon)
            rw [heq, eligible_empty_target mac j hmac] at hel
            exact Bool.false_ne_true hel
          have hp : poll (some mac) now st
              = ({ heartbeat mac now st with
                   knock_queue := pre ++ post,
                   job_history := updateA e.id
                     { status := JStatus.assigned, worker := some mac }
                     (heartbeat mac now st).job_history,
                   system_logs := log_event (LogMsg.dispatching e.id mac)
                     (heartbeat mac now st).system_logs },
                 Resp.knock e.id) := by
            simp [poll, hmac, hct]
          simp only [step, hp]
          refine ⟨?_, ?_, ?_⟩
          · have hne : Entry.mk j (some "") ≠ e := by
              intro hcon
              exact hje (by rw [← hcon])
            exact mem_append_of_mem_middle_ne (hq2 ▸ hm) hne
          · simp [hje]
          · intro hs _
            have hst : statusOf
                ({ heartbeat mac now st with
                   knock_queue := pre ++ post,
                   job_history := updateA e.id
                     { status := JStatus.assigned, worker := some mac }
                     (heartbeat mac now st).job_history,
                   system_logs := log_event (LogMsg.dispatching e.id mac)
                     (heartbeat mac now st).system_logs }) j = statusOf st j := by
              simp [statusOf, lookupA_updateA_ne _ _ (fun hcon => hje hcon.symm)]
            rw [hst]; exact hs
        · have hp : poll (some mac) now st = (heartbeat mac now st, Resp.sleep) := by
            simp [poll, hmac, hct]
          simp only [step, hp]
          exact ⟨hm, by simp, fun hs _ => by simpa [statusOf] using hs⟩
  | confirm j' w =>
    cases hl : lookupA j' st.job_history with
    | none =>
      have hst : (confirm_knock j' w st).1 = st := by simp [confirm_knock, hl]
      simp only [step, hst]
      exact ⟨hm, by simp [confirm_resp_ok], fun hs _ => hs⟩
    | some r0 =>
      have hh : (confirm_knock j' w st).1.job_history
          = updateA j' { status := JStatus.completed, worker := some w } st.job_history := by
        simp [confirm_knock, hl]
      have hqk : (confirm_knock j' w st).1.knock_queue = st.knock_queue := by
        simp [confirm_knock, hl]
      simp only [step]
      refine ⟨by rw [hqk]; exact hm, by simp [confirm_resp_ok], ?_⟩
      intro hs hnc
      have hne : j ≠ j' := by
        intro hcon
        exact (hnc w) (by rw [hcon])
      have hst : statusOf (confirm_knock j' w st).1 j = statusOf st j := by
        simp [statusOf, hh, lookupA_updateA_ne _ _ hne]
      rw [hst]; exact hs

/-- A pending entry whose target is the empty string survives any request
sequence. -/
theorem stuck_run (more : List Op) (j : Nat) :
    ∀ st outs, TraceInv st outs →
      Entry.mk j (some "") ∈ st.knock_queue →
      (Entry.mk j (some "") ∈ (runFrom st more).1.knock_queue ∧
       Resp.knock j ∉ (runFrom st more).2 ∧
       (statusOf st j = some JStatus.queued → (∀ w, Op.confirm j w ∉ more) →
          statusOf (runFrom st more).1 j = some JStatus.queued)) := by
  induction more with
  | nil =>
    intro st outs _ hm
    exact ⟨hm, by simp [runFrom], fun hs _ => hs⟩
  | cons op ops ih =>
    intro st outs h hm
    have h1 := stuck_step op j h hm
    have h2 := ih (step st op).1 (outs ++ [(step st op).2]) (step_preserves op h) h1.1
    refine ⟨h2.1, ?_, ?_⟩
    · intro hmem
      have hrf : (runFrom st (op :: ops)).2
          = (step st op).2 :: (runFrom (step st op).1 ops).2 := rfl
      rw [hrf] at hmem
      rcases List.mem_cons.mp hmem with h3 | h3
      · exact h1.2.1 h3.symm
      · exact h2.2.1 h3
    · intro hs hnc
      have hs1 := h1.2.2 hs (fun w hw => hnc w (hw ▸ List.mem_cons_self _ _))
      exact h2.2.2 hs1 (fun w hw => hnc w (List.mem_cons_of_mem _ hw))

/-! ### The liveness threshold -/

/-- Python's `int()` truncation does not move a nonneg elapsed time across the
10-second threshold, and negative elapsed times truncate to a value below it
as well. -/
theorem pyInt_lt_ten (q : ℚ) : pyInt q < 10 ↔ q < 10 := by
  unfold pyInt
  by_cases h : 0 ≤ q
  · rw [if_pos h, Int.floor_lt]
    norm_num
  · rw [if_neg h]
    push_neg at h
    constructor
    · intro _
      linarith
    · intro _
      have h2 : (0:ℚ) ≤ -q := by linarith
      have h3 : (0:ℤ) ≤ ⌊(-q : ℚ)⌋ := Int.floor_nonneg.mpr h2
      omega

/-! ### Sample states for witnesses -/

/-- A store with one worker-targeted job ahead of two any-worker jobs. -/
def exQSt : ServerState :=
  { devices := [],
    knock_queue := [{ id := 0, target := some "v" }, { id := 1, target := none },
                    { id := 2, target := none }],
    job_history := [(0, { status := JStatus.queued, worker := none }),
                    (1, { status := JStatus.queued, worker := none }),
                    (2, { status := JStatus.queued, worker := none })],
    system_logs := [], nextId := 3 }

/-- A store with one registered worker and one assigned job. -/
def exDevSt : ServerState :=
  { devices := [("w", { last_seen := 0, status := "online", knocks := 0 })],
    knock_queue := [],
    job_history := [(0, { status := JStatus.assigned, worker := some "w" })],
    system_logs := [], nextId := 1 }

/-- A store with one job assigned to worker "a". -/
def exHistSt : ServerState :=
  { devices := [], knock_queue := [],
    job_history := [(0, { status := JStatus.assigned, worker := some "a" })],
    system_logs := [], nextId := 1 }

/-! ### The claims -/

/-- Claim C1: `poll` removes and returns exactly the first pending-queue entry
(head to tail) whose target is absent or equal to the polling worker, leaving
the other entries in their original relative order; the returned entry is
eligible (never targeted at a different worker) and no eligible earlier entry
is skipped; when no entry matches, the answer is SLEEP and the queue is left
unchanged (and conversely a SLEEP answer means nothing matched and nothing
moved); `queue_knock` appends at the tail. -/
theorem C1_poll_fifo (mac : String) (hmac : mac ≠ "") (now : ℚ) (st : ServerState)
    (t : Option String) :
    (∀ jobId, (poll (some mac) now st).2 = Resp.knock jobId →
       ∃ pre e post, st.knock_queue = pre ++ e :: post ∧ e.id = jobId ∧
         eligible mac e = true ∧ (∀ x ∈ pre, eligible mac x = false) ∧
         (poll (some mac) now st).1.knock_queue = pre ++ post) ∧
    ((∀ e ∈ st.knock_queue, eligible mac e = false) →
       (poll (some mac) now st).2 = Resp.sleep ∧
       (poll (some mac) now st).1.knock_queue = st.knock_queue) ∧
    ((poll (some mac) now st).2 = Resp.sleep →
       (poll (some mac) now st).1.knock_queue = st.knock_queue ∧
       ∀ e ∈ st.knock_queue, eligible mac e = false) ∧
    (queue_knock t st).1.knock_queue
      = st.knock_queue ++ [{ id := st.nextId, target := t }] := by
  rcases tryClaim_cases mac st.knock_queue with
    ⟨pre, e, post, hct, hq, hel, hpre⟩ | ⟨hct, hall⟩
  · have hp : poll (some mac) now st
        = ({ heartbeat mac now st with
             knock_queue := pre ++ post,
             job_history := updateA e.id
               { status := JStatus.assigned, worker := some mac }
               (heartbeat mac now st).job_history,
             system_logs := log_event (LogMsg.dispatching e.id mac)
               (heartbeat mac now st).system_logs },
           Resp.knock e.id) := by
      simp [poll, hmac, hct]
    have hemem : e ∈ st.knock_queue := by
      rw [hq]
      exact List.mem_append.mpr (Or.inr (List.mem_cons_self _ _))
    refine ⟨?_, ?_, ?_, rfl⟩
    · intro jobId hj
      rw [hp] at hj
      have hid : e.id = jobId := by
        cases hj
        rfl
      refine ⟨pre, e, post, hq, hid, hel, hpre, ?_⟩
      rw [hp]
    · intro hall
      rw [hall e hemem] at hel
      cases hel
    · intro hsleep
      rw [hp] at hsleep
      cases hsleep
  · have hp : poll (some mac) now st = (heartbeat mac now st, Resp.sleep) := by
      simp [poll, hmac, hct]
    refine ⟨?_, ?_, ?_, rfl⟩
    · intro jobId hj
      rw [hp] at hj
      cases hj
    · intro _
      rw [hp]
      exact ⟨rfl, rfl⟩
    · intro _
      rw [hp]
      exact ⟨rfl, hall⟩

/-- A store whose only pending job is targeted at "v", so a poll from any
other worker matches nothing. -/
def exTargSt : ServerState :=
  { devices := [],
    knock_queue := [{ id := 0, target := some "v" }],
    job_history := [(0, { status := JStatus.queued, worker := none })],
    system_logs := [], nextId := 1 }

/-- Witness for C1 at concrete stores: a poll from "w" skips the job targeted
at "v", claims job 1, and leaves the rest in order; a poll from "u" on a
queue holding only the "v"-targeted job answers SLEEP and moves nothing. -/
theorem C1_witness :
    (∃ pre e post, exQSt.knock_queue = pre ++ e :: post ∧ e.id = 1 ∧
       eligible "w" e = true ∧ (∀ x ∈ pre, eligible "w" x = false) ∧
       (poll (some "w") 0 exQSt).1.knock_queue = pre ++ post) ∧
    (poll (some "u") 0 exTargSt).2 = Resp.sleep ∧
    (poll (some "u") 0 exTargSt).1.knock_queue = exTargSt.knock_queue :=
  ⟨(C1_poll_fifo "w" (by decide) 0 exQSt none).1 1 (by decide),
   (C1_poll_fifo "u" (by decide) 0 exTargSt none).2.1 (by decide)⟩

/-- Claim C2: across any request sequence from the empty store, each job id is
handed out in a KNOCK response at most once. -/
theorem C2_at_most_one_claim (ops : List Op) : (claimedIds (run ops).2).Nodup :=
  (run_inv ops).nodupClaimQ.of_append_left

/-- The literal reading of claim C3: every pending entry is recorded `queued`,
and every history entry no longer pending is `assigned` or `completed`, in
every reachable state. -/
def C3Claim : Prop :=
  ∀ ops : List Op,
    (∀ e ∈ (run ops).1.knock_queue, statusOf (run ops).1 e.id = some JStatus.queued) ∧
    (∀ i r, lookupA i (run ops).1.job_history = some r → i ∉ qIds (run ops).1 →
       r.status = JStatus.assigned ∨ r.status = JStatus.completed)

/-- Claim C3 as stated is false: after `submit` then an early completion
report for the still-pending job, the entry sits in the queue with history
state completed, not queued. -/
theorem C3_counterexample : ¬ C3Claim := by
  intro h
  have h2 := (h [Op.submit none, Op.confirm 0 "w"]).1
    { id := 0, target := none } (by decide)
  exact absurd h2 (by decide)

/-- Claim C3, amended: every pending entry is recorded `queued` or (when a
completion report named it while still pending) `completed`; every history
entry no longer pending is `assigned` or `completed`. -/
theorem C3_amended_invariant (ops : List Op) :
    (∀ e ∈ (run ops).1.knock_queue,
       statusOf (run ops).1 e.id = some JStatus.queued ∨
       statusOf (run ops).1 e.id = some JStatus.completed) ∧
    (∀ i r, lookupA i (run ops).1.job_history = some r → i ∉ qIds (run ops).1 →
       r.status = JStatus.assigned ∨ r.status = JStatus.completed) :=
  ⟨(run_inv ops).qStatus, (run_inv ops).offQueue⟩

/-- Witness for C3 (amended) on a concrete trace: job 1 still pending is
queued, job 0 (claimed by "w") is off-queue with an assigned record. -/
theorem C3_witness :
    (statusOf (run [Op.submit none, Op.poll (some "w") 0, Op.submit none]).1
        (Entry.mk 1 none).id = some JStatus.queued ∨
     statusOf (run [Op.submit none, Op.poll (some "w") 0, Op.submit none]).1
        (Entry.mk 1 none).id = some JStatus.completed) ∧
    ((JobRec.mk JStatus.assigned (some "w")).status = JStatus.assigned ∨
     (JobRec.mk JStatus.assigned (some "w")).status = JStatus.completed) :=
  ⟨(C3_amended_invariant [Op.submit none, Op.poll (some "w") 0, Op.submit none]).1
      (Entry.mk 1 none) (by decide),
   (C3_amended_invariant [Op.submit none, Op.poll (some "w") 0, Op.submit none]).2
      0 (JobRec.mk JStatus.assigned (some "w")) (by decide) (by decide)⟩

/-- The literal reading of claim C4: a completed job stays completed under any
further requests. -/
def C4Claim : Prop :=
  ∀ (ops more : List Op) (i : Nat),
    statusOf (run ops).1 i = some JStatus.completed →
    statusOf (run (ops ++ more)).1 i = some JStatus.completed

/-- Claim C4 as stated is false: completing a job that is still pending and
then polling regresses its state from completed back to assigned. -/
theorem C4_counterexample : ¬ C4Claim := by
  intro h
  have h2 := h [Op.submit none, Op.confirm 0 "w"] [Op.poll (some "x") 0] 0 (by decide)
  exact absurd h2 (by decide)

/-- Claim C4, amended: once a job is completed AND its entry has left the
pending queue, no later poll or completion report changes its state. -/
theorem C4_completed_stable (ops more : List Op) (i : Nat)
    (h1 : statusOf (run ops).1 i = some JStatus.completed)
    (h2 : i ∉ qIds (run ops).1) :
    statusOf (run (ops ++ more)).1 i = some JStatus.completed := by
  have h3 := completed_stable_run more (run ops).1 (run ops).2 (run_inv ops) h1 h2
  have h4 : (run (ops ++ more)).1 = (runFrom (run ops).1 more).1 := by
    simp [run, runFrom_append]
  rw [h4]
  exact h3.1

/-- Witness for C4 (amended) on a concrete trace: job 0, claimed and then
completed, stays completed across a later poll and a duplicate report. -/
theorem C4_witness :
    statusOf (run ([Op.submit none, Op.poll (some "w") 0, Op.confirm 0 "w"]
        ++ [Op.poll (some "v") 1, Op.confirm 0 "u"])).1 0 = some JStatus.completed :=
  C4_completed_stable [Op.submit none, Op.poll (some "w") 0, Op.confirm 0 "w"]
    [Op.poll (some "v") 1, Op.confirm 0 "u"] 0 (by decide) (by decide)

/-- The literal reading of claim C5: every completion report increments a
known reporting worker's count by exactly one, even when the job id is
unknown. -/
def C5Claim : Prop :=
  ∀ (j : Nat) (w : String) (st : ServerState) (d : Device),
    lookupA w st.devices = some d →
    lookupA w (confirm_knock j w st).1.devices = some { d with knocks := d.knocks + 1 }

/-- Claim C5 as stated is false: a completion report naming an unknown job id
leaves the known worker's count untouched (the increment sits inside the
known-job branch). -/
theorem C5_counterexample : ¬ C5Claim := by
  intro h
  have h2 := h 5 "w" exDevSt { last_seen := 0, status := "online", knocks := 0 } (by decide)
  exact absurd h2 (by decide)

/-- Claim C5, amended: a completion report increments the known reporting
worker's count by exactly one when the job id is known (again on duplicates),
and not at all when the job id is unknown; other workers and unknown
reporting workers are never affected; the call always reports success. -/
theorem C5_increment (j : Nat) (w : String) (st : ServerState) :
    (∀ d, lookupA w st.devices = some d →
       lookupA w (confirm_knock j w st).1.devices =
         some (if (lookupA j st.job_history).isSome
               then { d with knocks := d.knocks + 1 } else d)) ∧
    (∀ w', w' ≠ w → lookupA w' (confirm_knock j w st).1.devices = lookupA w' st.devices) ∧
    (lookupA w st.devices = none → (confirm_knock j w st).1.devices = st.devices) ∧
    (confirm_knock j w st).2 = Resp.ok := by
  cases hl : lookupA j st.job_history with
  | none =>
    have hst : (confirm_knock j w st).1 = st := by simp [confirm_knock, hl]
    refine ⟨?_, ?_, ?_, confirm_resp_ok j w st⟩
    · intro d hd
      rw [hst, hd]
      simp
    · intro w' _
      rw [hst]
    · intro _
      rw [hst]
  | some r0 =>
    have hd : (confirm_knock j w st).1.devices
        = (match lookupA w st.devices with
           | some d => updateA w { d with knocks := d.knocks + 1 } st.devices
           | none => st.devices) := by
      simp [confirm_knock, hl]
    refine ⟨?_, ?_, ?_, confirm_resp_ok j w st⟩
    · intro d hw
      rw [hd, hw]
      simp [lookupA_updateA_self]
    · intro w' hw'
      rw [hd]
      cases hw : lookupA w st.devices with
      | none => rfl
      | some d0 => simp [lookupA_updateA_ne _ _ hw']
    · intro hw
      rw [hd, hw]

/-- Witness for C5 (amended): confirming known job 0 bumps "w" from 0 to 1
knocks; worker "v" is unaffected; confirming unknown job 5 changes nothing. -/
theorem C5_witness :
    lookupA "w" (confirm_knock 0 "w" exDevSt).1.devices
      = some { last_seen := 0, status := "online", knocks := 1 } ∧
    lookupA "v" (confirm_knock 0 "w" exDevSt).1.devices = lookupA "v" exDevSt.devices ∧
    (confirm_knock 5 "w" exDevSt).1.devices = exDevSt.devices := by
  refine ⟨?_, (C5_increment 0 "w" exDevSt).2.1 "v" (by decide), ?_⟩
  · have h1 := (C5_increment 0 "w" exDevSt).1
      { last_seen := 0, status := "online", knocks := 0 } (by decide)
    exact h1.trans (by decide)
  · have h2 := (C5_increment 5 "w" exDevSt).1
      { last_seen := 0, status := "online", knocks := 0 } (by decide)
    have h3 := (C5_increment 5 "w" exDevSt).2.1
    -- job 5 is unknown, so the record is returned unchanged
    have h4 : (confirm_knock 5 "w" exDevSt).1 = exDevSt := by
      simp [confirm_knock, show lookupA 5 exDevSt.job_history = none from by decide]
    rw [h4]

/-- Claim C6: for a known job id, a completion report sets its history record
to completed and overwrites the assigned worker with the reporting worker,
whatever was recorded at claim time; for an unknown job id it changes no
state; in both cases it signals success. -/
theorem C6_completion_authoritative (j : Nat) (w : String) (st : ServerState) :
    (∀ r, lookupA j st.job_history = some r →
       lookupA j (confirm_knock j w st).1.job_history
         = some { status := JStatus.completed, worker := some w }) ∧
    (lookupA j st.job_history = none → (confirm_knock j w st).1 = st) ∧
    (confirm_knock j w st).2 = Resp.ok := by
  refine ⟨?_, ?_, confirm_resp_ok j w st⟩
  · intro r hl
    have hh : (confirm_knock j w st).1.job_history
        = updateA j { status := JStatus.completed, worker := some w } st.job_history := by
      simp [confirm_knock, hl]
    rw [hh, lookupA_updateA_self]
  · intro hl
    simp [confirm_knock, hl]

/-- Witness for C6: reporting job 0 as "b" overwrites the worker "a" recorded
at claim time; reporting unknown job 7 leaves the store untouched. -/
theorem C6_witness :
    lookupA 0 (confirm_knock 0 "b" exHistSt).1.job_history
      = some { status := JStatus.completed, worker := some "b" } ∧
    (confirm_knock 7 "b" exHistSt).1 = exHistSt :=
  ⟨(C6_completion_authoritative 0 "b" exHistSt).1
      (JobRec.mk JStatus.assigned (some "a")) (by decide),
   (C6_completion_authoritative 7 "b" exHistSt).2.1 (by decide)⟩

/-- `poll` keeps the devices map produced by the heartbeat untouched through
the claim phase. -/
theorem poll_devices (mac : String) (hmac : mac ≠ "") (now : ℚ) (st : ServerState) :
    (poll (some mac) now st).1.devices = (heartbeat mac now st).devices := by
  rcases tryClaim_cases mac st.knock_queue with
    ⟨pre, e, post, hct, _, _, _⟩ | ⟨hct, _⟩ <;> simp [poll, hmac, hct]

/-- A valid poll never answers the missing-id error. -/
theorem poll_resp_valid (mac : String) (hmac : mac ≠ "") (now : ℚ) (st : ServerState) :
    (poll (some mac) now st).2 ≠ Resp.missingId := by
  rcases tryClaim_cases mac st.knock_queue with
    ⟨pre, e, post, hct, _, _, _⟩ | ⟨hct, _⟩ <;> simp [poll, hmac, hct]

/-- Claim C7: `poll` fails with the missing-id error exactly when the caller
supplies no identifier (absent or empty); for every non-empty identifier it
performs an idempotent heartbeat upsert — an unseen worker is created with
zero completed knocks, the "new device joined" event is logged only on that
first creation, other workers are untouched, and `last_seen` is always set to
now. -/
theorem C7_poll_heartbeat (m : Option String) (now : ℚ) (st : ServerState) :
    ((poll m now st).2 = Resp.missingId ↔ (m = none ∨ m = some "")) ∧
    (∀ mac, m = some mac → mac ≠ "" →
       (lookupA mac (poll m now st).1.devices
          = some { last_seen := now, status := "online",
                   knocks := ((lookupA mac st.devices).map Device.knocks).getD 0 }) ∧
       (∀ w', w' ≠ mac → lookupA w' (poll m now st).1.devices = lookupA w' st.devices) ∧
       ((lookupA mac st.devices).isSome →
          (heartbeat mac now st).system_logs = st.system_logs) ∧
       ((lookupA mac st.devices).isNone →
          (heartbeat mac now st).system_logs
            = log_event (LogMsg.newDevice mac) st.system_logs)) := by
  constructor
  · cases m with
    | none => simp [poll]
    | some mac =>
      by_cases hmac : mac = ""
      · subst hmac
        simp [poll]
      · exact iff_of_false (poll_resp_valid mac hmac now st) (by simp [hmac])
  · intro mac hmeq hmac
    subst hmeq
    have hdev : (poll (some mac) now st).1.devices
        = updateA mac
            { last_seen := now, status := "online",
              knocks := ((lookupA mac st.devices).map Device.knocks).getD 0 }
            st.devices := by
      rw [poll_devices mac hmac now st]
      rfl
    refine ⟨?_, ?_, ?_, ?_⟩
    · rw [hdev, lookupA_updateA_self]
    · intro w' hw'
      rw [hdev, lookupA_updateA_ne _ _ hw']
    · intro hsome
      have hnone : (lookupA mac st.devices).isNone = false := by
        rcases hx : lookupA mac st.devices with _ | d
        · rw [hx] at hsome
          simp at hsome
        · simp
      simp [heartbeat, hnone]
    · intro hnone
      simp [heartbeat, hnone]

/-- Witness for C7: a poll with no id is rejected, an empty id is rejected, a
first poll from "w" creates the record with zero knocks and `last_seen = 3`
and logs the join event. -/
theorem C7_witness :
    (poll none 0 initState).2 = Resp.missingId ∧
    (poll (some "") 0 initState).2 = Resp.missingId ∧
    lookupA "w" (poll (some "w") 3 initState).1.devices
      = some { last_seen := 3, status := "online", knocks := 0 } ∧
    (heartbeat "w" 3 initState).system_logs = [LogMsg.newDevice "w"] := by
  refine ⟨(C7_poll_heartbeat none 0 initState).1.mpr (Or.inl rfl),
          (C7_poll_heartbeat (some "") 0 initState).1.mpr (Or.inr rfl), ?_, ?_⟩
  · have h1 := ((C7_poll_heartbeat (some "w") 3 initState).2 "w" rfl (by decide)).1
    exact h1.trans (by decide)
  · have h2 := ((C7_poll_heartbeat (some "w") 3 initState).2 "w" rfl (by decide)).2.2.2
      (by decide)
    exact h2.trans (by decide)

/-- Claim C8: the derived `is_online` flag of the admin snapshot is true
exactly when the elapsed time since the last heartbeat is under 10 seconds
(so 5 seconds ago is online, 15 seconds ago is offline, and exactly 10
seconds is offline), and the derivation does not mutate the store. -/
theorem C8_liveness (now : ℚ) (st : ServerState) :
    (∀ p ∈ st.devices,
       ((displayDevice now p.2).is_online = true ↔ now - p.2.last_seen < 10)) ∧
    (adminRoute now st).1 = st ∧
    (adminRoute now st).2 = st.devices.map (fun p => (p.1, displayDevice now p.2)) := by
  refine ⟨?_, rfl, rfl⟩
  intro p _
  simp [displayDevice, pyInt_lt_ten]

/-- Witness for C8: at time 100, a worker last seen at 95 (5s ago) is online,
one last seen at 85 (15s ago) is offline, and one last seen at 90 (exactly
the 10s boundary) is offline. -/
theorem C8_witness :
    (displayDevice 100 { last_seen := 95, status := "online", knocks := 0 }).is_online
      = true ∧
    (displayDevice 100 { last_seen := 85, status := "online", knocks := 0 }).is_online
      = false ∧
    (displayDevice 100 { last_seen := 90, status := "online", knocks := 0 }).is_online
      = false := by
  have h := C8_liveness 100
    { devices := [("a", { last_seen := 95, status := "online", knocks := 0 }),
                  ("b", { last_seen := 85, status := "online", knocks := 0 }),
                  ("c", { last_seen := 90, status := "online", knocks := 0 })],
      knock_queue := [], job_history := [], system_logs := [], nextId := 0 }
  refine ⟨?_, ?_, ?_⟩
  · exact (h.1 ("a", { last_seen := 95, status := "online", knocks := 0 })
      (by simp)).mpr (by norm_num)
  · have h2 := h.1 ("b", { last_seen := 85, status := "online", knocks := 0 }) (by simp)
    have h3 : ¬((100:ℚ) - 85 < 10) := by norm_num
    cases hbool : (displayDevice 100
        { last_seen := 85, status := "online", knocks := 0 }).is_online with
    | false => rfl
    | true => exact absurd (h2.mp hbool) h3
  · have h2 := h.1 ("c", { last_seen := 90, status := "online", knocks := 0 }) (by simp)
    have h3 : ¬((100:ℚ) - 90 < 10) := by norm_num
    cases hbool : (displayDevice 100
        { last_seen := 90, status := "online", knocks := 0 }).is_online with
    | false => rfl
    | true => exact absurd (h2.mp hbool) h3

/-- Claim C9: a status query for a job id never issued by any submission
answers the explicit unknown result without raising and without touching the
store; for an id present in history it answers that record's state and
worker. -/
theorem C9_unknown_lookup (ops : List Op) (i : Nat) :
    ((∀ j ∈ issuedIds (run ops).2, i ≠ j) →
       (job_status i (run ops).1).2 = JobStatusResp.unknown) ∧
    (∀ r, lookupA i (run ops).1.job_history = some r →
       (job_status i (run ops).1).2 = JobStatusResp.known r.status r.worker) ∧
    (job_status i (run ops).1).1 = (run ops).1 := by
  refine ⟨?_, ?_, rfl⟩
  · intro hni
    cases hl : lookupA i (run ops).1.job_history with
    | none => simp [job_status, hl]
    | some r =>
      have hiss := (run_inv ops).keysIssued i (mem_keys_of_lookupA hl)
      exact absurd rfl (hni i hiss)
  · intro r hl
    simp [job_status, hl]

/-- Witness for C9: after one submission (job 0), querying id 5 answers
unknown and querying id 0 answers the queued record. -/
theorem C9_witness :
    (job_status 5 (run [Op.submit none]).1).2 = JobStatusResp.unknown ∧
    (job_status 0 (run [Op.submit none]).1).2
      = JobStatusResp.known JStatus.queued none := by
  constructor
  · exact (C9_unknown_lookup [Op.submit none] 5).1 (by decide)
  · exact (C9_unknown_lookup [Op.submit none] 0).2.1
      (JobRec.mk JStatus.queued none) (by decide)

/-- The literal reading of claim C10: an empty-string-targeted entry stays
pending forever, always with history state queued, and is never claimed. -/
def C10Claim : Prop :=
  ∀ (ops₁ more : List Op),
    Entry.mk (run ops₁).1.nextId (some "")
        ∈ (run (ops₁ ++ Op.submit (some "") :: more)).1.knock_queue ∧
    statusOf (run (ops₁ ++ Op.submit (some "") :: more)).1 (run ops₁).1.nextId
      = some JStatus.queued ∧
    Resp.knock (run ops₁).1.nextId ∉ (run (ops₁ ++ Op.submit (some "") :: more)).2

/-- Claim C10 as stated is false in one conjunct: a completion report naming
the stuck job flips its history state to completed (while it stays pending),
so "in state Queued forever" fails. -/
theorem C10_counterexample : ¬ C10Claim := by
  intro h
  have h2 := (h [] [Op.confirm 0 "w"]).2.1
  exact absurd h2 (by decide)

/-- Claim C10, amended: an empty-string-targeted entry (a target `queue_knock`
accepts and stores as distinct from the absent any-worker target) stays in
the pending queue forever and is never the job of a KNOCK answer, since
`poll` rejects the empty worker id and the eligibility test fails for every
non-empty worker; its history state stays queued as long as no completion
report names it; and entries behind it are still scanned and claimable. -/
theorem C10_stuck_empty_target (ops₁ more : List Op) :
    Entry.mk (run ops₁).1.nextId (some "")
        ∈ (run (ops₁ ++ Op.submit (some "") :: more)).1.knock_queue ∧
    Resp.knock (run ops₁).1.nextId ∉ (run (ops₁ ++ Op.submit (some "") :: more)).2 ∧
    ((∀ w, Op.confirm (run ops₁).1.nextId w ∉ more) →
       statusOf (run (ops₁ ++ Op.submit (some "") :: more)).1 (run ops₁).1.nextId
         = some JStatus.queued) ∧
    (∀ mac : String, mac ≠ "" →
       eligible mac (Entry.mk (run ops₁).1.nextId (some "")) = false) ∧
    (∀ (now' : ℚ) (s : ServerState), (poll (some "") now' s).2 = Resp.missingId) ∧
    (∀ (mac : String) (q : List Entry), mac ≠ "" →
       tryClaim mac (Entry.mk (run ops₁).1.nextId (some "") :: q)
         = ((tryClaim mac q).1,
            Entry.mk (run ops₁).1.nextId (some "") :: (tryClaim mac q).2)) := by
  have h0 := run_inv ops₁
  have h1 := submit_preserves (some "") h0
  have hm1 : Entry.mk (run ops₁).1.nextId (some "")
      ∈ (queue_knock (some "") (run ops₁).1).1.knock_queue := by
    have hqk : (queue_knock (some "") (run ops₁).1).1.knock_queue
        = (run ops₁).1.knock_queue
          ++ [{ id := (run ops₁).1.nextId, target := some "" }] := rfl
    rw [hqk]
    exact List.mem_append.mpr (Or.inr (List.mem_cons_self _ _))
  have hs1 : statusOf (queue_knock (some "") (run ops₁).1).1 (run ops₁).1.nextId
      = some JStatus.queued := by
    simp [statusOf, queue_knock, lookupA_updateA_self]
  have hstuck := stuck_run more (run ops₁).1.nextId
    (queue_knock (some "") (run ops₁).1).1
    ((run ops₁).2 ++ [Resp.queued (run ops₁).1.nextId]) h1 hm1
  have hrun : run (ops₁ ++ Op.submit (some "") :: more)
      = ((runFrom (queue_knock (some "") (run ops₁).1).1 more).1,
         (run ops₁).2 ++ (Resp.queued (run ops₁).1.nextId
           :: (runFrom (queue_knock (some "") (run ops₁).1).1 more).2)) := by
    rw [run, runFrom_append]
    rfl
  refine ⟨?_, ?_, ?_, ?_, ?_, ?_⟩
  · rw [hrun]
    exact hstuck.1
  · rw [hrun]
    intro hmem
    rcases List.mem_append.mp hmem with hmem1 | hmem1
    · have := mem_claimedIds_of_mem hmem1
      exact lt_irrefl _ (h0.claimedLt _ this)
    · rcases List.mem_cons.mp hmem1 with hmem2 | hmem2
      · cases hmem2
      · exact hstuck.2.1 hmem2
  · intro hnc
    rw [hrun]
    exact hstuck.2.2 hs1 hnc
  · intro mac hmac
    exact eligible_empty_target mac _ hmac
  · intro now' s
    simp [poll]
  · intro mac q hmac
    simp [tryClaim, eligible_empty_target mac _ hmac]

/-- Witness for C10 (amended): submit a job with an empty-string target, then
a normal job, then poll from "w": the stuck entry is skipped but kept, stays
queued, and job 1 behind it is claimed instead. -/
theorem C10_witness :
    Entry.mk 0 (some "")
        ∈ (run ([] ++ Op.submit (some "")
            :: [Op.submit none, Op.poll (some "w") 0])).1.knock_queue ∧
    Resp.knock 0 ∉ (run ([] ++ Op.submit (some "")
        :: [Op.submit none, Op.poll (some "w") 0])).2 ∧
    statusOf (run ([] ++ Op.submit (some "")
        :: [Op.submit none, Op.poll (some "w") 0])).1 0 = some JStatus.queued := by
  have h := C10_stuck_empty_target [] [Op.submit none, Op.poll (some "w") 0]
  exact ⟨h.1, h.2.1, h.2.2.1 (by intro w; simp)⟩

end Knock
